import Mathlib

/-!
Shallow embedding of the react-router type-generation pipeline
(packages/react-router-dev/typegen/index.ts) together with the helper
modules it imports.  Filesystem effects are modelled as explicit state
passing over a finite map from file paths to file contents; the watch
handler is modelled as a state-transition function on a watch state.

The modules typegen/params.ts, typegen/route.ts, typegen/generate.ts and
typegen/paths.ts are not part of the sources; their definitions below are
modelled from the specification and marked as such in their doc comments.
-/

namespace Typegen

/-- A route node of the route tree: a stable identifier plus an optional
path-pattern segment (absent for pathless layout routes). -/
structure Route where
  id : String
  path : Option String
deriving DecidableEq, Repr

/-- JavaScript truthiness of an optional path string: an absent path and
the empty string are both falsy (the source tests this with a bare
negation on route.path). -/
def pathTruthy : Option String → Bool
  | none => false
  | some s => !(s == "")

/-- The future-flags record of a configuration snapshot; only the
unstable_middleware flag is read by the generator. -/
structure Future where
  unstable_middleware : Bool
deriving DecidableEq, Repr

/-- A configuration snapshot: the route tree (its values in insertion
order, as iterated by Object.values) plus the future flags. -/
structure Config where
  routes : List Route
  future : Future
deriving DecidableEq, Repr

/-- The typegen context: the project root directory and the current
configuration snapshot (createContext in typegen/index.ts; the config
loader handle is modelled separately by the watch-state machine). -/
structure Context where
  rootDirectory : String
  config : Config
deriving DecidableEq, Repr

/-- Splitting a character list at every slash, as the JavaScript
String.prototype.split with separator slash does: empty segments from
leading, trailing or doubled slashes are kept. -/
def splitOnSlash : List Char → List (List Char)
  | [] => [[]]
  | c :: rest =>
    let r := splitOnSlash rest
    if c = '/' then [] :: r
    else
      match r with
      | [] => [[c]]
      | seg :: segs => (c :: seg) :: segs

/-- Modelled from the spec: the per-segment grammar of the path-pattern
parser (typegen/params.ts is not in the sources).  A segment equal to a
single star declares the always-required splat parameter named by that
star; a segment beginning with a colon declares a dynamic parameter named
by the remainder minus a trailing question mark, optional exactly when
that question mark is present; static and empty segments declare
nothing. -/
def segParam (seg : List Char) : Option (String × Bool) :=
  match seg with
  | ['*'] => some ("*", true)
  | ':' :: rest =>
    if rest.getLast? = some '?' then some (String.mk rest.dropLast, false)
    else some (String.mk rest, true)
  | _ => none

/-- Insertion into an association list with JavaScript object-assignment
semantics: an existing key keeps its position and its value is
overwritten; a new key is appended at the end. -/
def upsert (m : List (String × Bool)) (k : String) (v : Bool) :
    List (String × Bool) :=
  match m with
  | [] => [(k, v)]
  | (k0, v0) :: rest =>
    if k0 = k then (k, v) :: rest else (k0, v0) :: upsert rest k v

namespace Params

/-- Modelled from the spec: Params.parse (typegen/params.ts is not in the
sources).  The full path is split on slashes, each segment is classified
by the grammar, and the resulting descriptors are accumulated into a
mapping in first-appearance key order with last-occurrence values. -/
def parse (fullpath : String) : List (String × Bool) :=
  (splitOnSlash fullpath.data).foldl
    (fun acc seg =>
      match segParam seg with
      | none => acc
      | some (k, v) => upsert acc k v)
    []

end Params

namespace Route

/-- Lookup of a route by its identifier in the route tree. -/
def findById (routes : List Route) (id : String) : Option Route :=
  routes.find? (fun r => r.id == id)

/-- Modelled from the spec: the parent identifier of a route identifier
is the identifier with its last slash-delimited component removed, or
absent when there is no such component (in which case the parent is the
designated root). -/
def parentIdOf (id : String) : Option String :=
  let comps := (splitOnSlash id.data).map (fun l => String.mk l)
  if comps.length ≤ 1 then none
  else some (String.intercalate "/" comps.dropLast)

/-- Fuel-bounded parent walk used to define lineage; the fuel is an upper
bound on the number of remaining parent steps. -/
def lineageAux (routes : List Route) : Nat → Route → List Route
  | 0, r => [r]
  | fuel + 1, r =>
    if r.id == "root" then [r]
    else
      match parentIdOf r.id with
      | some pid =>
        match findById routes pid with
        | some p => lineageAux routes fuel p ++ [r]
        | none => [r]
      | none =>
        match findById routes "root" with
        | some rootRoute => [rootRoute, r]
        | none => [r]

/-- Modelled from the spec: Route.lineage (typegen/route.ts is not in the
sources) walks parent links from the target route up to the root and
returns the chain in root-first order.  On a corrupt tree, where a parent
identifier is not found, the spec declares a fatal error; the model
returns the partial chain, and the claims below concern only well-formed
trees.  The identifier length bounds the number of parent steps because
each step strictly shortens the identifier. -/
def lineage (routes : List Route) (r : Route) : List Route :=
  lineageAux routes (r.id.length + 1) r

/-- Modelled from the spec: Route.fullpath joins the lineage members'
path segments with a slash, skipping members with no segment and
normalizing away empty segments so no duplicate separators appear. -/
def fullpath (lin : List Route) : String :=
  String.intercalate "/" ((lin.filterMap (fun r => r.path)).filter (fun p => !(p == "")))

end Route

/-- Full path of a single route within a route tree: the join of its
lineage, as computed inside register in typegen/index.ts. -/
def fullpathOf (routes : List Route) (r : Route) : String :=
  Route.fullpath (Route.lineage routes r)

/-- Modelled from the spec: getTypesDir (typegen/paths.ts is not in the
sources), the output directory fully owned by the generator, under the
project root. -/
def getTypesDir (ctx : Context) : String :=
  ctx.rootDirectory ++ "/.react-router/types"

/-- Path.join restricted to the two-argument uses in typegen/index.ts:
the directory, a separator, and the file name. -/
def pathJoin (dir name : String) : String :=
  dir ++ "/" ++ name

/-- Modelled from the spec: getTypesPath (typegen/paths.ts is not in the
sources); one declaration file per route, its path derived
deterministically from the route identifier inside the types directory. -/
def getTypesPath (ctx : Context) (route : Route) : String :=
  pathJoin (getTypesDir ctx) (route.id ++ "/+types.d.ts")

/-- Directory name of a path: the path with its last slash-delimited
component removed (Path.dirname). -/
def dirnameOf (p : String) : String :=
  String.intercalate "/" (((splitOnSlash p.data).map (fun l => String.mk l)).dropLast)

/-- Textual form of a boolean, as interpolated into templates. -/
def boolText : Bool → String
  | true => "true"
  | false => "false"

/-- Rendering of one parameter descriptor as a property signature, with
the optionality marker exactly when the parameter is not required. -/
def renderParamEntry (kv : String × Bool) : String :=
  "\"" ++ kv.1 ++ "\"" ++ (if kv.2 then "" else "?") ++ ": string"

/-- Rendering of one full-path entry of the Params type literal. -/
def renderPathEntry (fp : String) : String :=
  "\"" ++ fp ++ "\": \x7b " ++
    String.intercalate "; " ((Params.parse fp).map renderParamEntry) ++ " \x7d"

/-- Rendering of the Params type alias emitted through the Babel printer
in register; modelled as a deterministic textual rendering of the
distinct-full-path entries in order. -/
def renderParamsAlias (fps : List String) : String :=
  "type Params = \x7b\n" ++ String.intercalate "\n" (fps.map renderPathEntry) ++ "\n\x7d;"

/-- Modelled from the spec: the per-route declaration generator
(typegen/generate.ts is not in the sources).  The spec leaves the exact
template implementation-defined, requiring only syntactically valid
output that is a deterministic function of the snapshot; modelled as a
deterministic rendering of the route identifier, its full path, its
parameter descriptors and, for the root route, the middleware flag. -/
def generate (ctx : Context) (route : Route) : String :=
  let fp := fullpathOf ctx.config.routes route
  let params := String.intercalate "; " ((Params.parse fp).map renderParamEntry)
  let middleware :=
    if route.id == "root" then
      "\ndeclare module \"react-router\" \x7b interface Future \x7b unstable_middleware: " ++
        boolText ctx.config.future.unstable_middleware ++ " \x7d \x7d"
    else ""
  "// Generated route module types for " ++ route.id ++ "\n" ++
    "type Params = \x7b " ++ params ++ " \x7d // " ++ fp ++ middleware

/-- The guard at the head of the full-path collection loop in register:
a route is skipped when its identifier differs from the root identifier
and its path is falsy. -/
def skipRoute (r : Route) : Bool :=
  r.id != "root" && !(pathTruthy r.path)

/-- Insertion into a JavaScript Set modelled as a duplicate-free list in
insertion order: an element already present leaves the set unchanged, a
new element is appended. -/
def setInsert (l : List String) (x : String) : List String :=
  if x ∈ l then l else l ++ [x]

/-- The full-path collection loop of register in typegen/index.ts: walk
the route collection in order, skip non-root routes with falsy paths,
and add every other route's full path to the set. -/
def collectFullpaths (routes : List Route) : List String :=
  routes.foldl
    (fun acc route =>
      if skipRoute route then acc
      else setInsert acc (fullpathOf routes route))
    []

/-- The register function of typegen/index.ts: the module-augmentation
header with the interpolated middleware flag, joined with the rendered
Params type alias over the distinct full paths. -/
def register (ctx : Context) : String :=
  let header :=
    "import \"react-router\";\n\ndeclare module \"react-router\" \x7b\n" ++
    "  interface Register \x7b\n    params: Params;\n  \x7d\n\n" ++
    "  interface Future \x7b\n    unstable_middleware: " ++
    boolText ctx.config.future.unstable_middleware ++ "\n  \x7d\n\x7d"
  String.intercalate "\n\n" [header, renderParamsAlias (collectFullpaths ctx.config.routes)]

/-- The static ambient-module declaration written as +virtual.d.ts (the
constant named virtual in typegen/index.ts); a fixed template taking no
input at all, hence independent of the route tree and configuration. -/
def virtual : String :=
  "declare module \"virtual:react-router/server-build\" \x7b\n" ++
  "  import \x7b ServerBuild \x7d from \"react-router\";\n" ++
  "  export const assets: ServerBuild[\"assets\"];\n" ++
  "  export const assetsBuildDirectory: ServerBuild[\"assetsBuildDirectory\"];\n" ++
  "  export const basename: ServerBuild[\"basename\"];\n" ++
  "  export const entry: ServerBuild[\"entry\"];\n" ++
  "  export const future: ServerBuild[\"future\"];\n" ++
  "  export const isSpaMode: ServerBuild[\"isSpaMode\"];\n" ++
  "  export const prerender: ServerBuild[\"prerender\"];\n" ++
  "  export const publicPath: ServerBuild[\"publicPath\"];\n" ++
  "  export const routeDiscovery: ServerBuild[\"routeDiscovery\"];\n" ++
  "  export const routes: ServerBuild[\"routes\"];\n" ++
  "  export const ssr: ServerBuild[\"ssr\"];\n" ++
  "  export const unstable_getCriticalCss: ServerBuild[\"unstable_getCriticalCss\"];\n" ++
  "\x7d"

/-- The filesystem modelled as a finite map from absolute file paths to
file contents, represented as an association list. -/
abbrev FS := List (String × String)

/-- Prefix test on character lists, used to decide whether a path lies
inside a directory. -/
def strStarts : List Char → List Char → Bool
  | [], _ => true
  | _ :: _, [] => false
  | a :: as, b :: bs => a == b && strStarts as bs

/-- A path lies inside a directory when the directory name followed by a
slash is a prefix of the path. -/
def insideDir (dir p : String) : Bool :=
  strStarts (dir ++ "/").data p.data

/-- Removal of a single file from the filesystem map. -/
def eraseFile (fs : FS) (p : String) : FS :=
  fs.filter (fun e => !(e.1 == p))

/-- fs.writeFileSync: the file at the path is created or overwritten. -/
def writeFileFs (fs : FS) (p c : String) : FS :=
  eraseFile fs p ++ [(p, c)]

/-- fs.rmSync with recursive and force: every file inside the directory
is removed; a missing directory leaves the filesystem unchanged rather
than failing (the operation is total). -/
def rmTreeFs (fs : FS) (dir : String) : FS :=
  fs.filter (fun e => !(insideDir dir e.1))

/-- The files of the filesystem lying inside a directory, in map order. -/
def filesUnder (dir : String) (fs : FS) : FS :=
  fs.filter (fun e => insideDir dir e.1)

/-- A single filesystem operation as performed by writeAll: recursive
forced removal of a directory, recursive directory creation, or a file
write. -/
inductive FsOp where
  | rmTree (dir : String)
  | mkdirp (dir : String)
  | write (path content : String)
deriving DecidableEq, Repr

/-- Effect of one filesystem operation on the filesystem map; directory
creation does not change the map of files. -/
def applyOp (fs : FS) : FsOp → FS
  | .rmTree dir => rmTreeFs fs dir
  | .mkdirp _ => fs
  | .write p c => writeFileFs fs p c

/-- Effect of a sequence of filesystem operations, applied in order. -/
def applyOps (fs : FS) (ops : List FsOp) : FS :=
  ops.foldl applyOp fs

/-- The per-route block of the writeAll loop: for every route of the
snapshot, in iteration order, a recursive creation of the parent
directory of its declaration file followed by the write of that file. -/
def routeOps (ctx : Context) : List FsOp :=
  ctx.config.routes.flatMap (fun route =>
    [FsOp.mkdirp (dirnameOf (getTypesPath ctx route)),
     FsOp.write (getTypesPath ctx route) (generate ctx route)])

/-- The two trailing writes of writeAll: the register declaration file,
then the static virtual declaration file. -/
def finalOps (ctx : Context) : List FsOp :=
  [FsOp.write (pathJoin (getTypesDir ctx) "+register.ts") (register ctx),
   FsOp.write (pathJoin (getTypesDir ctx) "+virtual.d.ts") virtual]

/-- The writeAll function of typegen/index.ts as the ordered sequence of
filesystem operations it performs: remove the types directory, then for
every route create its parent directory and write its declaration file,
then write the register declaration, then write the static virtual
declaration. -/
def writeAllOps (ctx : Context) : List FsOp :=
  FsOp.rmTree (getTypesDir ctx) :: (routeOps ctx ++ finalOps ctx)

/-- The writeAll function of typegen/index.ts as a filesystem
transformer: its operation sequence applied to the current filesystem. -/
def writeAll (ctx : Context) (fs : FS) : FS :=
  applyOps fs (writeAllOps ctx)

/-- A change notification delivered to the onChange handler by the
config loader: the reload result plus the two change flags. -/
structure ChangeEvent where
  result : Except String Config
  configChanged : Bool
  routeConfigChanged : Bool

/-- One logger line emitted by the watch handler: an info message or an
error message. -/
inductive LogEntry where
  | info (msg : String)
  | error (msg : String)
deriving DecidableEq, Repr

/-- The mutable state visible to the watch orchestrator: the context
fields (root directory and current snapshot), the filesystem, and the
log of messages emitted so far. -/
structure WatchState where
  rootDirectory : String
  config : Config
  fs : FS
  logs : List LogEntry

/-- The context value reconstructed from the current watch state. -/
def ctxOf (st : WatchState) : Context :=
  { rootDirectory := st.rootDirectory, config := st.config }

/-- The onChange handler installed by watch in typegen/index.ts: a failed
reload only logs the error; a successful reload first assigns the new
snapshot to ctx.config and then, only when a change flag is set, runs
writeAll and logs success. -/
def onChangeHandler (st : WatchState) (ev : ChangeEvent) : WatchState :=
  match ev.result with
  | .error e => { st with logs := st.logs ++ [LogEntry.error e] }
  | .ok newConfig =>
    let st1 := { st with config := newConfig }
    if ev.configChanged || ev.routeConfigChanged then
      { st1 with
        fs := writeAll (ctxOf st1) st1.fs
        logs := st1.logs ++ [LogEntry.info "regenerated types"] }
    else st1

/-- createContext of typegen/index.ts, as a function of the result of the
initial getConfig call: a failed load is thrown (modelled as the error
branch of Except), a successful one yields the context. -/
def createContext (rootDirectory : String) (configResult : Except String Config) :
    Except String Context :=
  match configResult with
  | .error e => Except.error e
  | .ok config => Except.ok { rootDirectory := rootDirectory, config := config }

/-- The one-shot run entry point of typegen/index.ts: create the context
and run writeAll; a failed initial load aborts before any write, leaving
the filesystem untouched and surfacing the error. -/
def run (rootDirectory : String) (configResult : Except String Config) (fs : FS) :
    FS × Except String Unit :=
  match createContext rootDirectory configResult with
  | .error e => (fs, Except.error e)
  | .ok ctx => (writeAll ctx fs, Except.ok ())

/-- The startup phase of the watch entry point of typegen/index.ts:
create the context, run writeAll once, log success and enter the watch
state; a failed initial load aborts before any write and before any
watch state exists. -/
def watchStartup (rootDirectory : String) (configResult : Except String Config)
    (fs : FS) : FS × Except String WatchState :=
  match createContext rootDirectory configResult with
  | .error e => (fs, Except.error e)
  | .ok ctx =>
    let fs1 := writeAll ctx fs
    (fs1,
     Except.ok
       { rootDirectory := ctx.rootDirectory, config := ctx.config, fs := fs1,
         logs := [LogEntry.info "generated types"] })

/-- Helper for first-occurrence deduplication: walk the list keeping
every element not seen before, remembering the seen elements. -/
def dedupFirstAux : List String → List String → List String
  | _, [] => []
  | seen, x :: xs =>
    if x ∈ seen then dedupFirstAux seen xs
    else x :: dedupFirstAux (x :: seen) xs

/-- Specification-side first-occurrence deduplication: keep each string
the first time it appears and drop all its later occurrences, so the
result lists the distinct elements in order of first discovery. -/
def dedupFirst (l : List String) : List String :=
  dedupFirstAux [] l

/-- The descriptor values produced for one parameter name by the
segments of a full path, in segment scan order: the occurrence list of
that name. -/
def paramHits (s k : String) : List Bool :=
  (((splitOnSlash s.data).filterMap segParam).filter (fun kv => kv.1 == k)).map Prod.snd

/-- Classification of a filesystem operation relative to a directory:
directory creations are harmless, writes must target a path inside the
directory, and removals are excluded. -/
def opWritesInside (dir : String) : FsOp → Bool
  | .rmTree _ => false
  | .mkdirp _ => true
  | .write p _ => insideDir dir p

/-- The complete output set produced by one writeAll pass for a
snapshot: the effect of its write operations on an empty filesystem.
It is a function of the context alone. -/
def outputFiles (ctx : Context) : FS :=
  applyOps [] (routeOps ctx ++ finalOps ctx)

/-- A sample root route used to evaluate the theorems below on concrete
input. -/
def routeRootEx : Route :=
  { id := "root", path := none }

/-- A sample child route with a dynamic segment in its path pattern. -/
def routePostEx : Route :=
  { id := "post", path := some "posts/:slug" }

/-- A sample configuration snapshot with a root route and one child. -/
def cfgEx : Config :=
  { routes := [routeRootEx, routePostEx], future := { unstable_middleware := false } }

/-- A second sample snapshot, differing from the first, used as a reload
result in the watch-handler theorems. -/
def cfgEx2 : Config :=
  { routes := [routeRootEx], future := { unstable_middleware := true } }

/-- A sample context over the first snapshot. -/
def ctxEx : Context :=
  { rootDirectory := "app", config := cfgEx }

/-- A sample watch state holding the first snapshot, an empty filesystem
and an empty log. -/
def stEx : WatchState :=
  { rootDirectory := "app", config := cfgEx, fs := [], logs := [] }

/-- A change notification carrying a failed reload result. -/
def evFailEx : ChangeEvent :=
  { result := Except.error "boom", configChanged := true, routeConfigChanged := true }

/-- A change notification carrying a successful reload with both change
flags clear. -/
def evNoChangeEx : ChangeEvent :=
  { result := Except.ok cfgEx2, configChanged := false, routeConfigChanged := false }

end Typegen

namespace Typegen

/-- C2: on a change notification whose reload result is a failure, the
watch handler leaves the in-memory snapshot, the filesystem and the root
directory exactly as they were, and only appends the error to the log. -/
theorem onChange_failed_reload_preserves_state (st : WatchState) (ev : ChangeEvent)
    (e : String) (h : ev.result = Except.error e) :
    (onChangeHandler st ev).config = st.config ∧
    (onChangeHandler st ev).fs = st.fs ∧
    (onChangeHandler st ev).rootDirectory = st.rootDirectory ∧
    (onChangeHandler st ev).logs = st.logs ++ [LogEntry.error e] := by
  simp [onChangeHandler, h]

/-- Witness for C2 at a concrete failed change notification. -/
theorem onChange_failed_reload_witness :
    (onChangeHandler stEx evFailEx).config = stEx.config ∧
    (onChangeHandler stEx evFailEx).fs = stEx.fs ∧
    (onChangeHandler stEx evFailEx).rootDirectory = stEx.rootDirectory ∧
    (onChangeHandler stEx evFailEx).logs = stEx.logs ++ [LogEntry.error "boom"] :=
  onChange_failed_reload_preserves_state stEx evFailEx "boom" rfl

/-- C3: on a change notification carrying a successful reload with both
change flags clear, the watch handler performs no filesystem writes and
emits no log line: the filesystem and the log are unchanged. -/
theorem onChange_no_structural_change_no_writes (st : WatchState) (ev : ChangeEvent)
    (c : Config) (h : ev.result = Except.ok c)
    (h1 : ev.configChanged = false) (h2 : ev.routeConfigChanged = false) :
    (onChangeHandler st ev).fs = st.fs ∧
    (onChangeHandler st ev).logs = st.logs := by
  simp only [onChangeHandler, h, h1, h2, Bool.or_self, Bool.false_or, if_false]
  exact ⟨rfl, rfl⟩

/-- Witness for C3 at a concrete no-structural-change notification. -/
theorem onChange_no_structural_change_witness :
    (onChangeHandler stEx evNoChangeEx).fs = stEx.fs ∧
    (onChangeHandler stEx evNoChangeEx).logs = stEx.logs :=
  onChange_no_structural_change_no_writes stEx evNoChangeEx cfgEx2 rfl rfl rfl

/-- C10: on every change notification carrying a successful reload the
watch handler assigns the new snapshot to the in-memory configuration
before checking the change flags, so the snapshot is replaced even when
both flags are clear, while in that clear-flags case the filesystem is
still untouched. -/
theorem onChange_success_replaces_snapshot (st : WatchState) (ev : ChangeEvent)
    (c : Config) (h : ev.result = Except.ok c) :
    (onChangeHandler st ev).config = c ∧
    (ev.configChanged = false → ev.routeConfigChanged = false →
      ((onChangeHandler st ev).config = c ∧ (onChangeHandler st ev).fs = st.fs)) := by
  simp only [onChangeHandler, h]
  constructor
  · by_cases hc : (ev.configChanged || ev.routeConfigChanged) = true
    · simp [hc]
    · simp [hc]
  · intro h1 h2
    simp [h1, h2]

/-- Witness for C10 at a concrete successful notification with both
flags clear. -/
theorem onChange_success_replaces_snapshot_witness :
    (onChangeHandler stEx evNoChangeEx).config = cfgEx2 ∧
    (evNoChangeEx.configChanged = false → evNoChangeEx.routeConfigChanged = false →
      ((onChangeHandler stEx evNoChangeEx).config = cfgEx2 ∧
        (onChangeHandler stEx evNoChangeEx).fs = stEx.fs)) :=
  onChange_success_replaces_snapshot stEx evNoChangeEx cfgEx2 rfl

/-- C7: when the initial configuration load fails, createContext
surfaces that error, and both the one-shot entry point and the watch
startup abort with it, leaving the filesystem untouched and creating no
watch state. -/
theorem startup_aborts_on_failed_initial_load (rootDirectory : String)
    (res : Except String Config) (fs : FS) (e : String)
    (h : res = Except.error e) :
    createContext rootDirectory res = Except.error e ∧
    run rootDirectory res fs = (fs, Except.error e) ∧
    watchStartup rootDirectory res fs = (fs, Except.error e) := by
  subst h
  exact ⟨rfl, rfl, rfl⟩

/-- Witness for C7 at a concrete failed initial load. -/
theorem startup_aborts_witness :
    createContext "app" (Except.error "bad config" : Except String Config) = Except.error "bad config" ∧
    run "app" (Except.error "bad config") [] = ([], Except.error "bad config") ∧
    watchStartup "app" (Except.error "bad config") [] = ([], Except.error "bad config") :=
  startup_aborts_on_failed_initial_load "app" (Except.error "bad config") [] "bad config" rfl

lemma strStarts_refl_append : ∀ (l m : List Char), strStarts l (l ++ m) = true
  | [], _ => rfl
  | a :: as, m => by simp [strStarts, strStarts_refl_append as m]

lemma insideDir_pathJoin (dir name : String) :
    insideDir dir (pathJoin dir name) = true :=
  strStarts_refl_append (dir ++ "/").data name.data

lemma routeOps_writesInside (ctx : Context) :
    ∀ op ∈ routeOps ctx, opWritesInside (getTypesDir ctx) op = true := by
  intro op hop
  simp only [routeOps, List.mem_flatMap, List.mem_cons, List.mem_singleton,
    List.not_mem_nil, or_false] at hop
  obtain ⟨route, -, hop | hop⟩ := hop <;> subst hop
  · rfl
  · simpa [opWritesInside, getTypesPath] using insideDir_pathJoin (getTypesDir ctx) _

lemma finalOps_writesInside (ctx : Context) :
    ∀ op ∈ finalOps ctx, opWritesInside (getTypesDir ctx) op = true := by
  intro op hop
  simp only [finalOps, List.mem_cons, List.mem_singleton, List.not_mem_nil,
    or_false] at hop
  obtain hop | hop := hop <;> subst hop <;>
    simpa [opWritesInside] using insideDir_pathJoin (getTypesDir ctx) _

lemma writeFileFs_append_outside (dir : String) (fs0 acc : FS) (p c : String)
    (h0 : ∀ e ∈ fs0, insideDir dir e.1 = false) (hp : insideDir dir p = true) :
    writeFileFs (fs0 ++ acc) p c = fs0 ++ writeFileFs acc p c := by
  unfold writeFileFs eraseFile
  rw [List.filter_append, List.append_assoc]
  have hfs0 : fs0.filter (fun e => !(e.1 == p)) = fs0 := by
    rw [List.filter_eq_self]
    intro e he
    have : e.1 ≠ p := by
      intro hq
      have hx := h0 e he
      rw [hq, hp] at hx
      simp at hx
    simpa using this
  rw [hfs0]

lemma applyOps_append_outside (dir : String) (ops : List FsOp)
    (hops : ∀ op ∈ ops, opWritesInside dir op = true) (fs0 : FS)
    (h0 : ∀ e ∈ fs0, insideDir dir e.1 = false) :
    ∀ acc : FS, applyOps (fs0 ++ acc) ops = fs0 ++ applyOps acc ops := by
  induction ops with
  | nil => intro acc; rfl
  | cons op rest ih =>
    intro acc
    have hop := hops op (List.mem_cons_self op rest)
    have hrest : ∀ op ∈ rest, opWritesInside dir op = true := fun o ho =>
      hops o (List.mem_cons_of_mem op ho)
    cases op with
    | rmTree d => simp [opWritesInside] at hop
    | mkdirp d =>
      simpa only [applyOps, List.foldl_cons, applyOp] using ih hrest acc
    | write p c =>
      have hp : insideDir dir p = true := hop
      simp only [applyOps, List.foldl_cons, applyOp]
      rw [writeFileFs_append_outside dir fs0 acc p c h0 hp]
      exact ih hrest (writeFileFs acc p c)

lemma applyOps_entries_inside (dir : String) (ops : List FsOp)
    (hops : ∀ op ∈ ops, opWritesInside dir op = true) :
    ∀ acc : FS, (∀ e ∈ acc, insideDir dir e.1 = true) →
      ∀ e ∈ applyOps acc ops, insideDir dir e.1 = true := by
  induction ops with
  | nil => intro acc hacc; exact hacc
  | cons op rest ih =>
    intro acc hacc
    have hop := hops op (List.mem_cons_self op rest)
    have hrest : ∀ op ∈ rest, opWritesInside dir op = true := fun o ho =>
      hops o (List.mem_cons_of_mem op ho)
    cases op with
    | rmTree d => simp [opWritesInside] at hop
    | mkdirp d => exact ih hrest acc hacc
    | write p c =>
      refine ih hrest (writeFileFs acc p c) ?_
      intro e he
      unfold writeFileFs eraseFile at he
      rcases List.mem_append.mp he with he | he
      · exact hacc e (List.mem_of_mem_filter he)
      · rcases List.mem_singleton.mp he with rfl
        exact hop

lemma rmTreeFs_entries_outside (fs : FS) (dir : String) :
    ∀ e ∈ rmTreeFs fs dir, insideDir dir e.1 = false := by
  intro e he
  have hx := (List.mem_filter.mp he).2
  simpa using hx

lemma rmTreeFs_append (a b : FS) (dir : String) :
    rmTreeFs (a ++ b) dir = rmTreeFs a dir ++ rmTreeFs b dir :=
  List.filter_append a b

lemma filesUnder_append (a b : FS) (dir : String) :
    filesUnder dir (a ++ b) = filesUnder dir a ++ filesUnder dir b :=
  List.filter_append a b

lemma outputFiles_entries_inside (ctx : Context) :
    ∀ e ∈ outputFiles ctx, insideDir (getTypesDir ctx) e.1 = true := by
  refine applyOps_entries_inside (getTypesDir ctx) (routeOps ctx ++ finalOps ctx)
    ?_ [] (by intro e he; cases he)
  intro op hop
  rcases List.mem_append.mp hop with h | h
  · exact routeOps_writesInside ctx op h
  · exact finalOps_writesInside ctx op h

lemma writeAll_decomp (ctx : Context) (fs : FS) :
    writeAll ctx fs = rmTreeFs fs (getTypesDir ctx) ++ outputFiles ctx := by
  have hops : ∀ op ∈ routeOps ctx ++ finalOps ctx,
      opWritesInside (getTypesDir ctx) op = true := by
    intro op hop
    rcases List.mem_append.mp hop with h | h
    · exact routeOps_writesInside ctx op h
    · exact finalOps_writesInside ctx op h
  have h :=
    applyOps_append_outside (getTypesDir ctx) (routeOps ctx ++ finalOps ctx) hops
      (rmTreeFs fs (getTypesDir ctx)) (rmTreeFs_entries_outside fs (getTypesDir ctx)) []
  simpa only [List.append_nil, writeAll, writeAllOps, applyOps, List.foldl_cons,
    applyOp, outputFiles] using h

lemma rmTreeFs_idem (fs : FS) (dir : String) :
    rmTreeFs (rmTreeFs fs dir) dir = rmTreeFs fs dir := by
  unfold rmTreeFs
  rw [List.filter_eq_self]
  intro e he
  exact (List.mem_filter.mp he).2

lemma rmTreeFs_of_inside (l : FS) (dir : String)
    (h : ∀ e ∈ l, insideDir dir e.1 = true) : rmTreeFs l dir = [] := by
  unfold rmTreeFs
  rw [List.filter_eq_nil_iff]
  intro e he
  simp [h e he]

lemma filesUnder_of_inside (l : FS) (dir : String)
    (h : ∀ e ∈ l, insideDir dir e.1 = true) : filesUnder dir l = l :=
  List.filter_eq_self.mpr h

lemma filesUnder_of_outside (l : FS) (dir : String)
    (h : ∀ e ∈ l, insideDir dir e.1 = false) : filesUnder dir l = [] := by
  unfold filesUnder
  rw [List.filter_eq_nil_iff]
  intro e he
  simp [h e he]

/-- C1: the generate-and-write pipeline is a deterministic pure function
of the snapshot: running writeAll twice on an unchanged snapshot gives a
filesystem byte-identical to running it once, and the set of files it
leaves inside the output directory is the same for every prior
filesystem state, namely the output set computed from the snapshot
alone. -/
theorem writeAll_deterministic_idempotent (ctx : Context) (fs : FS) :
    writeAll ctx (writeAll ctx fs) = writeAll ctx fs ∧
    filesUnder (getTypesDir ctx) (writeAll ctx fs) = outputFiles ctx := by
  constructor
  · rw [writeAll_decomp ctx fs,
      writeAll_decomp ctx (rmTreeFs fs (getTypesDir ctx) ++ outputFiles ctx),
      rmTreeFs_append, rmTreeFs_idem,
      rmTreeFs_of_inside (outputFiles ctx) (getTypesDir ctx) (outputFiles_entries_inside ctx),
      List.append_nil]
  · rw [writeAll_decomp ctx fs, filesUnder_append,
      filesUnder_of_outside _ _ (rmTreeFs_entries_outside fs (getTypesDir ctx)),
      filesUnder_of_inside _ _ (outputFiles_entries_inside ctx),
      List.nil_append]

/-- C6: writeAll performs, in order, the recursive removal of the output
directory, then per route a parent-directory creation followed by the
write of that route's declaration file, then the write of the register
declaration, then the write of the static virtual declaration; removing
a missing directory is not an error and leaves the filesystem unchanged;
and for every context the final write carries the same constant content,
independent of routes and configuration. -/
theorem writeAll_step_order (ctx : Context) (fs : FS)
    (hmissing : filesUnder (getTypesDir ctx) fs = []) :
    writeAllOps ctx =
      FsOp.rmTree (getTypesDir ctx) ::
        ((ctx.config.routes.flatMap (fun route =>
            [FsOp.mkdirp (dirnameOf (getTypesPath ctx route)),
             FsOp.write (getTypesPath ctx route) (generate ctx route)])) ++
         [FsOp.write (pathJoin (getTypesDir ctx) "+register.ts") (register ctx),
          FsOp.write (pathJoin (getTypesDir ctx) "+virtual.d.ts") virtual]) ∧
    applyOp fs (FsOp.rmTree (getTypesDir ctx)) = fs ∧
    (∀ ctx2 : Context,
      (writeAllOps ctx2).getLast? =
        some (FsOp.write (pathJoin (getTypesDir ctx2) "+virtual.d.ts") virtual)) := by
  refine ⟨rfl, ?_, ?_⟩
  · show rmTreeFs fs (getTypesDir ctx) = fs
    unfold rmTreeFs
    rw [List.filter_eq_self]
    intro e he
    have : insideDir (getTypesDir ctx) e.1 = false := by
      by_contra hc
      have hin : insideDir (getTypesDir ctx) e.1 = true := by
        cases h : insideDir (getTypesDir ctx) e.1
        · exact absurd h hc
        · rfl
      have : e ∈ filesUnder (getTypesDir ctx) fs :=
        List.mem_filter.mpr ⟨he, hin⟩
      rw [hmissing] at this
      cases this
    simp [this]
  · intro ctx2
    unfold writeAllOps finalOps
    rw [List.getLast?_cons, List.getLast?_append]
    rfl

/-- Witness for C6 at a concrete context and an empty filesystem, where
the output directory is missing. -/
theorem writeAll_step_order_witness :
    applyOp ([] : FS) (FsOp.rmTree (getTypesDir ctxEx)) = ([] : FS) :=
  (writeAll_step_order ctxEx [] rfl).2.1

lemma mem_dedupFirstAux : ∀ (l seen : List String) (x : String),
    x ∈ dedupFirstAux seen l ↔ (x ∈ l ∧ x ∉ seen) := by
  intro l
  induction l with
  | nil => intro seen x; simp [dedupFirstAux]
  | cons y ys ih =>
    intro seen x
    by_cases hy : y ∈ seen
    · rw [dedupFirstAux, if_pos hy, ih]
      simp only [List.mem_cons]
      constructor
      · rintro ⟨hx, hxs⟩; exact ⟨Or.inr hx, hxs⟩
      · rintro ⟨hx | hx, hxs⟩
        · exact absurd hy (hx ▸ hxs)
        · exact ⟨hx, hxs⟩
    · rw [dedupFirstAux, if_neg hy]
      simp only [List.mem_cons, ih]
      constructor
      · rintro (rfl | ⟨hx, hxs⟩)
        · exact ⟨Or.inl rfl, hy⟩
        · exact ⟨Or.inr hx, fun hc => hxs (Or.inr hc)⟩
      · rintro ⟨rfl | hx, hxs⟩
        · exact Or.inl rfl
        · by_cases hxy : x = y
          · exact Or.inl hxy
          · refine Or.inr ⟨hx, fun hc => ?_⟩
            rcases hc with hc | hc
            · exact hxy hc
            · exact hxs hc

lemma nodup_dedupFirstAux : ∀ (l seen : List String),
    (dedupFirstAux seen l).Nodup := by
  intro l
  induction l with
  | nil => intro seen; simp [dedupFirstAux]
  | cons y ys ih =>
    intro seen
    by_cases hy : y ∈ seen
    · rw [dedupFirstAux, if_pos hy]
      exact ih seen
    · rw [dedupFirstAux, if_neg hy]
      refine List.Nodup.cons ?_ (ih (y :: seen))
      intro hc
      exact ((mem_dedupFirstAux ys (y :: seen) y).mp hc).2 (List.mem_cons_self y seen)

lemma dedupFirstAux_cons (seen : List String) (x : String) (xs : List String) :
    dedupFirstAux seen (x :: xs) =
      if x ∈ seen then dedupFirstAux seen xs
      else x :: dedupFirstAux (x :: seen) xs := rfl

lemma collect_foldl_eq (f : Route → String) (l : List Route) :
    ∀ (acc seen : List String), (∀ y, y ∈ seen ↔ y ∈ acc) →
      l.foldl (fun a r => if skipRoute r then a else setInsert a (f r)) acc
        = acc ++ dedupFirstAux seen ((l.filter (fun r => !(skipRoute r))).map f) := by
  induction l with
  | nil => intro acc seen _; simp [dedupFirstAux]
  | cons r rest ih =>
    intro acc seen hiff
    cases hskip : skipRoute r
    · have hstep :
          (r :: rest).foldl (fun a q => if skipRoute q then a else setInsert a (f q)) acc
            = rest.foldl (fun a q => if skipRoute q then a else setInsert a (f q))
                (setInsert acc (f r)) := by
        simp [List.foldl_cons, hskip]
      have hfil : (r :: rest).filter (fun q => !(skipRoute q))
          = r :: rest.filter (fun q => !(skipRoute q)) := by
        rw [List.filter_cons]
        simp [hskip]
      rw [hstep, hfil, List.map_cons, dedupFirstAux_cons]
      by_cases hmem : f r ∈ acc
      · rw [if_pos ((hiff (f r)).mpr hmem)]
        have hset : setInsert acc (f r) = acc := by simp [setInsert, hmem]
        rw [hset]
        exact ih acc seen hiff
      · rw [if_neg (fun hc => hmem ((hiff (f r)).mp hc))]
        have hset : setInsert acc (f r) = acc ++ [f r] := by simp [setInsert, hmem]
        have hiff2 : ∀ y, y ∈ f r :: seen ↔ y ∈ acc ++ [f r] := by
          intro y
          simp only [List.mem_cons, List.mem_append, List.mem_singleton, hiff]
          tauto
        rw [hset, ih (acc ++ [f r]) (f r :: seen) hiff2, List.append_assoc,
          List.singleton_append]
    · have hstep :
          (r :: rest).foldl (fun a q => if skipRoute q then a else setInsert a (f q)) acc
            = rest.foldl (fun a q => if skipRoute q then a else setInsert a (f q)) acc := by
        simp [List.foldl_cons, hskip]
      have hfil : (r :: rest).filter (fun q => !(skipRoute q))
          = rest.filter (fun q => !(skipRoute q)) := by
        rw [List.filter_cons]
        simp [hskip]
      rw [hstep, hfil]
      exact ih acc seen hiff

lemma collectFullpaths_eq (routes : List Route) :
    collectFullpaths routes =
      dedupFirst ((routes.filter (fun r => !(skipRoute r))).map (fullpathOf routes)) := by
  have h := collect_foldl_eq (fullpathOf routes) routes [] [] (by intro y; simp)
  simpa [collectFullpaths, dedupFirst] using h

lemma skipRoute_false_iff (r : Route) :
    skipRoute r = false ↔ (r.id = "root" ∨ ∃ p, r.path = some p ∧ p ≠ "") := by
  cases hp : r.path with
  | none => simp [skipRoute, pathTruthy, hp]
  | some s =>
    simp only [skipRoute, pathTruthy, hp]
    constructor
    · intro h
      rcases Bool.and_eq_false_iff.mp h with h | h
      · left
        simpa using h
      · right
        refine ⟨s, rfl, ?_⟩
        simpa using h
    · rintro (h | ⟨p, hps, hne⟩)
      · apply Bool.and_eq_false_iff.mpr
        left
        simpa using h
      · apply Bool.and_eq_false_iff.mpr
        right
        rcases Option.some.injEq s p ▸ hps with rfl
        simpa using hne

/-- C4: in the register generator a route contributes its full path to
the distinct-path set exactly when its id is the root identifier or its
path segment is a non-empty string; pathless non-root routes are skipped
and contribute no key of their own, so the collected set is exactly the
full paths of the non-skipped routes. -/
theorem register_fullpath_contribution (routes : List Route) :
    (∀ r : Route, skipRoute r = false ↔
      (r.id = "root" ∨ ∃ p, r.path = some p ∧ p ≠ "")) ∧
    (∀ fp : String, fp ∈ collectFullpaths routes ↔
      ∃ r, r ∈ routes ∧ (r.id = "root" ∨ ∃ p, r.path = some p ∧ p ≠ "") ∧
        fp = fullpathOf routes r) := by
  refine ⟨skipRoute_false_iff, ?_⟩
  intro fp
  rw [collectFullpaths_eq, dedupFirst, mem_dedupFirstAux]
  constructor
  · rintro ⟨hmem, -⟩
    obtain ⟨r, hrf, rfl⟩ := List.mem_map.mp hmem
    obtain ⟨hr, hskip⟩ := List.mem_filter.mp hrf
    have hs : skipRoute r = false := by
      cases h : skipRoute r
      · rfl
      · rw [h] at hskip; simp at hskip
    exact ⟨r, hr, (skipRoute_false_iff r).mp hs, rfl⟩
  · rintro ⟨r, hr, hcond, rfl⟩
    refine ⟨List.mem_map.mpr ⟨r, List.mem_filter.mpr ⟨hr, ?_⟩, rfl⟩,
      List.not_mem_nil _⟩
    rw [(skipRoute_false_iff r).mpr hcond]
    rfl

/-- C5: all routes whose full paths coincide yield exactly one key in
the collected distinct-path list, and the keys stand in insertion order
of first discovery while iterating the route collection: the list is
duplicate-free and equals the first-occurrence deduplication of the full
paths of the contributing routes in iteration order. -/
theorem register_fullpaths_unique_ordered (routes : List Route) :
    (collectFullpaths routes).Nodup ∧
    collectFullpaths routes =
      dedupFirst ((routes.filter (fun r => !(skipRoute r))).map (fullpathOf routes)) := by
  refine ⟨?_, collectFullpaths_eq routes⟩
  rw [collectFullpaths_eq routes]
  exact nodup_dedupFirstAux _ []

lemma upsert_nil (k : String) (v : Bool) : upsert [] k v = [(k, v)] := rfl

lemma upsert_cons (k1 : String) (v1 : Bool) (rest : List (String × Bool))
    (k : String) (v : Bool) :
    upsert ((k1, v1) :: rest) k v =
      if k1 = k then (k, v) :: rest else (k1, v1) :: upsert rest k v := rfl

lemma mem_keys_upsert : ∀ (m : List (String × Bool)) (k : String) (v : Bool)
    (k0 : String),
    k0 ∈ (upsert m k v).map Prod.fst ↔ k0 ∈ m.map Prod.fst ∨ k0 = k := by
  intro m
  induction m with
  | nil => intro k v k0; simp [upsert_nil]
  | cons kv rest ih =>
    intro k v k0
    obtain ⟨k1, v1⟩ := kv
    by_cases hk : k1 = k
    · subst hk
      rw [upsert_cons, if_pos rfl]
      simp only [List.map_cons, List.mem_cons]
      tauto
    · rw [upsert_cons, if_neg hk]
      simp only [List.map_cons, List.mem_cons, ih]
      tauto

lemma nodup_keys_upsert : ∀ (m : List (String × Bool)) (k : String) (v : Bool),
    (m.map Prod.fst).Nodup → ((upsert m k v).map Prod.fst).Nodup := by
  intro m
  induction m with
  | nil => intro k v _; simp [upsert_nil]
  | cons kv rest ih =>
    intro k v h
    obtain ⟨k1, v1⟩ := kv
    simp only [List.map_cons, List.nodup_cons] at h
    obtain ⟨hk1, hrest⟩ := h
    by_cases hk : k1 = k
    · subst hk
      rw [upsert_cons, if_pos rfl]
      simp only [List.map_cons, List.nodup_cons]
      exact ⟨hk1, hrest⟩
    · rw [upsert_cons, if_neg hk]
      simp only [List.map_cons, List.nodup_cons]
      refine ⟨?_, ih k v hrest⟩
      intro hc
      rcases (mem_keys_upsert rest k v k1).mp hc with hc | hc
      · exact hk1 hc
      · exact hk hc

lemma parse_fold_keys : ∀ (segs : List (List Char)) (acc : List (String × Bool))
    (k : String),
    (k ∈ (segs.foldl (fun a seg =>
        match segParam seg with
        | none => a
        | some (k1, v1) => upsert a k1 v1) acc).map Prod.fst
      ↔ k ∈ acc.map Prod.fst ∨ ∃ seg ∈ segs, ∃ b : Bool, segParam seg = some (k, b)) := by
  intro segs
  induction segs with
  | nil => intro acc k; simp
  | cons seg rest ih =>
    intro acc k
    rw [List.foldl_cons]
    cases hs : segParam seg with
    | none =>
      simp only [hs]
      rw [ih acc k]
      constructor
      · rintro (h | ⟨s, hsr, b, hb⟩)
        · exact Or.inl h
        · exact Or.inr ⟨s, List.mem_cons_of_mem seg hsr, b, hb⟩
      · rintro (h | ⟨s, hsr, b, hb⟩)
        · exact Or.inl h
        · rcases List.mem_cons.mp hsr with rfl | hsr
          · rw [hs] at hb; cases hb
          · exact Or.inr ⟨s, hsr, b, hb⟩
    | some kv =>
      obtain ⟨k1, v1⟩ := kv
      simp only [hs]
      rw [ih (upsert acc k1 v1) k]
      constructor
      · rintro (h | ⟨s, hsr, b, hb⟩)
        · rcases (mem_keys_upsert acc k1 v1 k).mp h with h | rfl
          · exact Or.inl h
          · exact Or.inr ⟨seg, List.mem_cons_self seg rest, v1, hs⟩
        · exact Or.inr ⟨s, List.mem_cons_of_mem seg hsr, b, hb⟩
      · rintro (h | ⟨s, hsr, b, hb⟩)
        · exact Or.inl ((mem_keys_upsert acc k1 v1 k).mpr (Or.inl h))
        · rcases List.mem_cons.mp hsr with rfl | hsr
          · rw [hs] at hb
            have hb2 := Option.some.inj hb
            have hkk : k1 = k := congrArg Prod.fst hb2
            exact Or.inl ((mem_keys_upsert acc k1 v1 k).mpr (Or.inr hkk.symm))
          · exact Or.inr ⟨s, hsr, b, hb⟩

lemma parse_fold_nodup : ∀ (segs : List (List Char)) (acc : List (String × Bool)),
    (acc.map Prod.fst).Nodup →
    ((segs.foldl (fun a seg =>
        match segParam seg with
        | none => a
        | some (k1, v1) => upsert a k1 v1) acc).map Prod.fst).Nodup := by
  intro segs
  induction segs with
  | nil => intro acc h; exact h
  | cons seg rest ih =>
    intro acc h
    rw [List.foldl_cons]
    cases hs : segParam seg with
    | none =>
      simp only [hs]
      exact ih acc h
    | some kv =>
      obtain ⟨k1, v1⟩ := kv
      simp only [hs]
      exact ih (upsert acc k1 v1) (nodup_keys_upsert acc k1 v1 h)

/-- C8: the path-pattern parser is total and exact: for every string,
parse returns a duplicate-free mapping whose key set is exactly the set
of dynamic-segment parameter names and splat names declared by the
segments of the string; static and empty segments contribute no keys. -/
theorem parse_total_exact_keys (s : String) :
    ((Params.parse s).map Prod.fst).Nodup ∧
    ∀ k : String, (k ∈ (Params.parse s).map Prod.fst ↔
      ∃ seg ∈ splitOnSlash s.data, ∃ b : Bool, segParam seg = some (k, b)) := by
  constructor
  · exact parse_fold_nodup (splitOnSlash s.data) [] (by simp)
  · intro k
    have h := parse_fold_keys (splitOnSlash s.data) [] k
    simpa [Params.parse] using h

lemma or_none_opt (o : Option Bool) : o.or none = o := by
  cases o <;> rfl

lemma some_or_opt (a : Bool) (o : Option Bool) : (some a).or o = some a := rfl

lemma none_or_opt (o : Option Bool) : (none : Option Bool).or o = o := rfl

lemma or_assoc_opt (a b c : Option Bool) : (a.or b).or c = a.or (b.or c) := by
  cases a <;> rfl

lemma getLast?_cons_or : ∀ (l : List Bool) (a : Bool),
    (a :: l).getLast? = l.getLast?.or (some a) := by
  intro l
  induction l with
  | nil => intro a; rfl
  | cons b bs ih =>
    intro a
    rw [List.getLast?_cons_cons, ih b]
    cases hbs : bs.getLast? with
    | none => rfl
    | some x => rfl

lemma lookup_upsert_self : ∀ (m : List (String × Bool)) (k : String) (v : Bool),
    (upsert m k v).lookup k = some v := by
  intro m
  induction m with
  | nil => intro k v; simp [upsert_nil, List.lookup]
  | cons kv rest ih =>
    intro k v
    obtain ⟨k1, v1⟩ := kv
    by_cases hk : k1 = k
    · subst hk
      rw [upsert_cons, if_pos rfl]
      simp [List.lookup]
    · rw [upsert_cons, if_neg hk]
      have hbeq : (k == k1) = false := by
        simp
        exact fun h => hk h.symm
      simp [List.lookup, hbeq, ih]

lemma lookup_upsert_other : ∀ (m : List (String × Bool)) (k : String) (v : Bool)
    (k0 : String), k0 ≠ k → (upsert m k v).lookup k0 = m.lookup k0 := by
  intro m
  induction m with
  | nil =>
    intro k v k0 h
    have hbeq : (k0 == k) = false := by simp [h]
    simp [upsert_nil, List.lookup, hbeq]
  | cons kv rest ih =>
    intro k v k0 h
    obtain ⟨k1, v1⟩ := kv
    by_cases hk : k1 = k
    · subst hk
      rw [upsert_cons, if_pos rfl]
      have hbeq : (k0 == k1) = false := by simp [h]
      simp [List.lookup, hbeq]
    · rw [upsert_cons, if_neg hk]
      by_cases hk0 : k0 = k1
      · subst hk0
        simp [List.lookup]
      · have hbeq : (k0 == k1) = false := by simp [hk0]
        simp [List.lookup, hbeq, ih k v k0 h]

lemma parse_fold_lookup : ∀ (segs : List (List Char)) (acc : List (String × Bool))
    (k : String),
    (segs.foldl (fun a seg =>
        match segParam seg with
        | none => a
        | some (k1, v1) => upsert a k1 v1) acc).lookup k
      = ((((segs.filterMap segParam).filter (fun kv => kv.1 == k)).map Prod.snd).getLast?).or
          (acc.lookup k) := by
  intro segs
  induction segs with
  | nil => intro acc k; simp
  | cons seg rest ih =>
    intro acc k
    rw [List.foldl_cons, List.filterMap_cons]
    cases hs : segParam seg with
    | none =>
      simp only [hs]
      exact ih acc k
    | some kv =>
      obtain ⟨k1, v1⟩ := kv
      simp only [hs]
      rw [List.filter_cons]
      by_cases hk : k1 = k
      · subst hk
        have hbeq : ((k1, v1).1 == k1) = true := by simp
        rw [if_pos hbeq, List.map_cons, getLast?_cons_or, or_assoc_opt,
          some_or_opt, ih (upsert acc k1 v1) k1, lookup_upsert_self]
      · have hbeq : ((k1, v1).1 == k) = false := by simp [hk]
        rw [if_neg (by simp [hbeq]), ih (upsert acc k1 v1) k,
          lookup_upsert_other acc k1 v1 k (fun h => hk h.symm)]

/-- C9: when the same parameter name occurs several times in a full
path, parse keeps one entry for that name whose required flag comes from
the last occurrence in segment scan order; in particular parsing
"/a/:id?/b/:id" resolves id as required. -/
theorem parse_last_occurrence_wins :
    (∀ s k : String, (Params.parse s).lookup k = (paramHits s k).getLast?) ∧
    Params.parse "/a/:id?/b/:id" = [("id", true)] := by
  constructor
  · intro s k
    have h := parse_fold_lookup (splitOnSlash s.data) [] k
    simpa [Params.parse, paramHits, or_none_opt] using h
  · rfl

end Typegen
